import Mathlib

/-!
Verification of the chained-iteration facility of the multi_iterators
repository, against a shallow embedding of its two header files.

The repository provides two implementations of the same idea:

* `src/TupleIterator.h` — `util::MultiRange<ContainerIt...>` stores a tuple
  of `range {first, last}` values, one per stage.  Its `iterator` holds a
  reference to that tuple plus a type-erased `StageHandler<ValueType, I, ...>`
  which owns a by-value copy of stage `I`'s range and advances its `first`
  member.  We model a range over a stage as a pair of `Nat` positions into
  that stage's element list (a stage as built by `iterate_over` always spans
  the whole container, so positions run from `0` to the list length, with
  `last` fixed at the length).  Reading `*first` when `first == last` is an
  out-of-range access in C++; the model returns `none` for it.

* `src/MultiIterator.h` — `util::MultiRange<ContainerIt>` stores an array of
  ranges; its `iterator` holds a pointer into that array (`_range_it`,
  modelled as a `Nat` index) and an element iterator (`_element_it`,
  modelled as a `Nat` position into the pointed-to stage).

Both are embedded below over a chain `rs : List (List α)`: stage `i` is the
list `rs.getD i []`, its range in the stored collection is never mutated
(cursors copy or index it), and a cursor's position within stage `i` is a
`Nat` that is `0` at the stage's begin and `stageLen rs i` at its end.
-/

namespace MultiIterators

/-- Length of stage `i` of the chain: the number of elements delimited by
the stored `range` for that stage (ranges always span the whole stage). -/
def stageLen {α : Type} (rs : List (List α)) (i : Nat) : Nat :=
  (rs.getD i []).length

namespace Tuple

/-- State of `MultiRange<ContainerIt...>::iterator` from `src/TupleIterator.h`:
the index `I` of the active `StageHandler` (its template parameter, which is
what `dynamic_cast` discriminates in `operator!=`), together with the
handler's by-value copy of the stage's range, `_range.first` and
`_range.last`, as positions into stage `I`'s element list. -/
structure TCursor where
  stage : Nat
  first : Nat
  last  : Nat
  deriving DecidableEq

/-- `MultiRange::begin()`: a cursor at stage 0 holding stage 0's full range. -/
def beginIt {α : Type} (rs : List (List α)) : TCursor :=
  ⟨0, 0, stageLen rs 0⟩

/-- `MultiRange::end()`: a copy of the last stage's range with
`first = last`, wrapped in a handler for the last stage index. -/
def endIt {α : Type} (rs : List (List α)) : TCursor :=
  ⟨rs.length - 1, stageLen rs (rs.length - 1), stageLen rs (rs.length - 1)⟩

/-- `StageHandler::done()`: `_range.first == _range.last`. -/
def done (c : TCursor) : Bool :=
  c.first == c.last

/-- `StageHandler::next_stage` plus `StageFactory`: when stage `I` is not the
last one (`I < sizeof...(ContainerIt) - 1`), construct in place the handler
for stage `I + 1` from the chain's stored (never-mutated) range for that
stage; when `I` is the last stage the factory does nothing and the storage
keeps the old handler's bytes. -/
def next_stage {α : Type} (rs : List (List α)) (c : TCursor) : TCursor :=
  if c.stage + 1 < rs.length then
    ⟨c.stage + 1, 0, stageLen rs (c.stage + 1)⟩
  else
    c

/-- `iterator::operator++` (pre-increment): if the active handler is done,
replace it by the next stage's handler; otherwise `next_element()`, which is
`_range.first++`. -/
def inc {α : Type} (rs : List (List α)) (c : TCursor) : TCursor :=
  if done c then next_stage rs c else ⟨c.stage, c.first + 1, c.last⟩

/-- `StageHandler::get_element()`: `*_range.first`.  Reading at or past the
stage's end position is out of range in C++; the model yields `none`. -/
def get_element {α : Type} (rs : List (List α)) (c : TCursor) : Option α :=
  (rs.getD c.stage [])[c.first]?

/-- The cursor state after `iterator::operator*`: the dereference first
replaces a done handler by the next stage's handler (a single `if`, executed
once), then reads. -/
def derefState {α : Type} (rs : List (List α)) (c : TCursor) : TCursor :=
  if done c then next_stage rs c else c

/-- `iterator::operator*`: promote once if the active handler is done, then
`get_element()`.  Returns the mutated cursor together with the value read. -/
def deref {α : Type} (rs : List (List α)) (c : TCursor) : TCursor × Option α :=
  (derefState rs c, get_element rs (derefState rs c))

/-- `iterator::operator->`: `get_handler().get_element()` with no done-check
and no stage promotion. -/
def tarrow {α : Type} (rs : List (List α)) (c : TCursor) : Option α :=
  get_element rs c

/-- `iterator::operator!=`, via `StageHandler::operator!=`: the
`dynamic_cast` to the concrete handler type fails exactly when the two
handlers' stage indices differ (unequal); otherwise compare `_range.first`
and `_range.last`. -/
def neq (a b : TCursor) : Bool :=
  a.stage != b.stage || a.first != b.first || a.last != b.last

/-- The standard consuming loop `for (it = begin; it != end; ++it) use(*it);`
the driver programs run, collecting every value `operator*` produces.  Note
that `operator*` mutates the cursor (it may promote) and `operator++` then
acts on the mutated cursor, exactly as in C++.  `fuel` bounds the number of
loop iterations so the function is total. -/
def traverse {α : Type} (rs : List (List α)) : TCursor → Nat → List (Option α)
  | _, 0 => []
  | c, fuel + 1 =>
    if neq c (endIt rs) then
      (deref rs c).2 :: traverse rs (inc rs (deref rs c).1) fuel
    else
      []

/-- `n` applications of `operator++`. -/
def incN {α : Type} (rs : List (List α)) : Nat → TCursor → TCursor
  | 0, c => c
  | n + 1, c => inc rs (incN rs n c)

end Tuple

namespace Multi

/-- State of `MultiRange<ContainerIt>::iterator` from `src/MultiIterator.h`:
`_range_it` (a pointer into the chain's array of ranges, modelled as the
index `ridx` of the range it points to) and `_element_it` (a position into
stage `ridx`'s element list). -/
structure MCursor where
  ridx : Nat
  elem : Nat
  deriving DecidableEq

/-- `MultiRange::begin()`: `_range_it = data()`, `_element_it` = the first
range's begin position. -/
def mbegin {α : Type} (_rs : List (List α)) : MCursor :=
  ⟨0, 0⟩

/-- `MultiRange::end()` (the `size() > 0` branch): `_range_it` points to the
last range, `_element_it` is that range's end position. -/
def mend {α : Type} (rs : List (List α)) : MCursor :=
  ⟨rs.length - 1, stageLen rs (rs.length - 1)⟩

/-- The test `_element_it == _range_it->end()` shared by `operator++` and
`operator*`. -/
def atStageEnd {α : Type} (rs : List (List α)) (c : MCursor) : Bool :=
  c.elem == stageLen rs c.ridx

/-- `iterator::operator++`: if `_element_it == _range_it->end()` then
`_range_it++; _element_it = _range_it->begin();` else `_element_it++`. -/
def minc {α : Type} (rs : List (List α)) (c : MCursor) : MCursor :=
  if atStageEnd rs c then ⟨c.ridx + 1, 0⟩ else ⟨c.ridx, c.elem + 1⟩

/-- The cursor state after `iterator::operator*`: a single conditional
promotion `_element_it = (++_range_it)->begin()`. -/
def mderefState {α : Type} (rs : List (List α)) (c : MCursor) : MCursor :=
  if atStageEnd rs c then ⟨c.ridx + 1, 0⟩ else c

/-- The value `operator*` reads after its conditional promotion:
`*_element_it`, `none` when the position is out of range. -/
def mget {α : Type} (rs : List (List α)) (c : MCursor) : Option α :=
  (rs.getD c.ridx [])[c.elem]?

/-- `iterator::operator->`: returns `_element_it` itself, with no
end-of-stage check and no promotion. -/
def marrow (c : MCursor) : Nat :=
  c.elem

/-- `iterator::operator!=`: `_range_it != other._range_it || _element_it !=
other._element_it`. -/
def mneq (a b : MCursor) : Bool :=
  a.ridx != b.ridx || a.elem != b.elem

end Multi

namespace Tuple

/-- The value sequence the loop produces from a cursor whose active stage is
exhausted, as a function of the list of stages that follow the active one.
Each head access `s[0]?` is the single `operator*` promotion-then-read:
`some` on a non-empty next stage, `none` (an out-of-range read in C++) on an
empty one. -/
def fromExhausted {α : Type} : List (List α) → List (Option α)
  | [] => []
  | [] :: [] => [none]
  | [] :: t :: ts => none :: (t.map some ++ fromExhausted ts)
  | (a :: tl) :: ss => some a :: (tl.map some ++ fromExhausted ss)

/-- The value sequence the loop produces from a freshly constructed cursor
positioned at the begin of the first of the given stages. -/
def fromFresh {α : Type} : List (List α) → List (Option α)
  | [] => []
  | s :: ss => s.map some ++ fromExhausted ss

end Tuple

/-- A chain together with two coexisting cursors drawn from it, as in the
sharing contract of the spec: the chain's stored range collection (the
`_ranges` tuple both cursors reference) plus cursor A and cursor B. -/
structure World (α : Type) where
  ranges : List (List α)
  curA : Tuple.TCursor
  curB : Tuple.TCursor

/-- Apply `operator++` to cursor A of a world: only the handler stored
inside cursor A changes; `next_stage` reads `std::get<I+1>(_ranges)` but
never writes to the range collection. -/
def advanceA {α : Type} (w : World α) : World α :=
  { w with curA := Tuple.inc w.ranges w.curA }

/-- Apply `operator*` to cursor A of a world, returning the new world and
the value read: again only cursor A's own handler storage mutates. -/
def derefA {α : Type} (w : World α) : World α × Option α :=
  ({ w with curA := Tuple.derefState w.ranges w.curA },
   Tuple.get_element w.ranges (Tuple.derefState w.ranges w.curA))

namespace Tuple

theorem traverse_zero {α : Type} (rs : List (List α)) (c : TCursor) :
    traverse rs c 0 = [] := rfl

theorem traverse_succ {α : Type} (rs : List (List α)) (c : TCursor) (fuel : Nat) :
    traverse rs c (fuel + 1) =
      if neq c (endIt rs) then
        (deref rs c).2 :: traverse rs (inc rs (deref rs c).1) fuel
      else
        [] := rfl

theorem getD_drop {α : Type} (rs : List (List α)) (i : Nat) (h : i < rs.length) :
    rs.drop i = rs.getD i [] :: rs.drop (i + 1) := by
  rw [List.drop_eq_getElem_cons h, List.getD_eq_getElem?_getD,
    List.getElem?_eq_getElem h]
  rfl

theorem fromExhausted_length_le {α : Type} (ss : List (List α)) :
    (fromExhausted ss).length ≤ ss.flatten.length + ss.length := by
  induction ss using fromExhausted.induct with
  | case1 => simp [fromExhausted]
  | case2 => simp [fromExhausted]
  | case3 t ts ih =>
    simp only [fromExhausted, List.length_cons, List.length_append,
      List.length_map, List.flatten_cons, List.flatten_nil, List.length_nil] at ih ⊢
    omega
  | case4 a tl ss ih =>
    simp only [fromExhausted, List.length_cons, List.length_append,
      List.length_map, List.flatten_cons] at ih ⊢
    omega

/-- Characterization of the consuming loop of `src/TupleIterator.h` from any
reachable cursor state: positioned in stage `i` at offset `f` with the
stage's full end position, the loop emits the remaining elements of stage
`i` and then the `fromExhausted` tail determined by the stages after `i`. -/
theorem traverse_eq {α : Type} (rs : List (List α)) :
    ∀ (fuel i f : Nat), i < rs.length → f ≤ stageLen rs i →
      stageLen rs i - f + (fromExhausted (rs.drop (i + 1))).length ≤ fuel →
      traverse rs ⟨i, f, stageLen rs i⟩ fuel
        = ((rs.getD i []).drop f).map some ++ fromExhausted (rs.drop (i + 1)) := by
  intro fuel
  induction fuel with
  | zero =>
    intro i f hi hf hfuel
    have h2 : (fromExhausted (rs.drop (i + 1))).length = 0 := by omega
    have h3 : fromExhausted (rs.drop (i + 1)) = [] := List.length_eq_zero.mp h2
    have hfl : f ≤ (rs.getD i []).length := hf
    have h4 : (rs.getD i []).drop f = [] := by
      apply List.drop_eq_nil_of_le
      have h1 : stageLen rs i - f = 0 := by omega
      simp only [stageLen] at h1
      omega
    rw [traverse_zero, h3, h4]
    rfl
  | succ fuel ih =>
    intro i f hi hf hfuel
    rcases Nat.lt_or_ge f (stageLen rs i) with hlt | hge
    · -- the active stage still has elements left
      have hguard : neq ⟨i, f, stageLen rs i⟩ (endIt rs) = true := by
        simp only [neq, endIt, Bool.or_eq_true, bne_iff_ne, ne_eq]
        rcases eq_or_ne i (rs.length - 1) with hi2 | hi2
        · subst hi2
          omega
        · tauto
      have hdone : done ⟨i, f, stageLen rs i⟩ = false := by
        simp only [done, beq_eq_false_iff_ne, ne_eq]
        omega
      have hflen : f < (rs.getD i []).length := hlt
      have hds : derefState rs ⟨i, f, stageLen rs i⟩ = ⟨i, f, stageLen rs i⟩ := by
        simp [derefState, hdone]
      have hval : get_element rs ⟨i, f, stageLen rs i⟩
          = some ((rs.getD i [])[f]) := by
        show (rs.getD i [])[f]? = some ((rs.getD i [])[f])
        exact List.getElem?_eq_getElem hflen
      have hinc : inc rs ⟨i, f, stageLen rs i⟩ = ⟨i, f + 1, stageLen rs i⟩ := by
        simp [inc, hdone]
      rw [traverse_succ, if_pos hguard]
      simp only [deref, hds, hval, hinc]
      rw [ih i (f + 1) hi (by omega) (by omega), List.drop_eq_getElem_cons hflen,
        List.map_cons, List.cons_append]
    · -- the active stage is exhausted: f = stageLen rs i
      have hfe : f = stageLen rs i := by omega
      subst hfe
      rcases Nat.lt_or_ge (i + 1) rs.length with hlt2 | hge2
      · -- there is a next stage
        have hidx2 : i + 1 + 1 = i + 2 := by omega
        have hidx3 : i + 2 + 1 = i + 3 := by omega
        have hguard : neq ⟨i, stageLen rs i, stageLen rs i⟩ (endIt rs) = true := by
          simp only [neq, endIt, Bool.or_eq_true, bne_iff_ne, ne_eq]
          omega
        have hdone : done ⟨i, stageLen rs i, stageLen rs i⟩ = true := by
          simp [done]
        have hds : derefState rs ⟨i, stageLen rs i, stageLen rs i⟩
            = ⟨i + 1, 0, stageLen rs (i + 1)⟩ := by
          simp [derefState, hdone, next_stage, hlt2]
        have hdropi : (rs.getD i []).drop (stageLen rs i) = [] :=
          List.drop_length (rs.getD i [])
        have hdrop1 : rs.drop (i + 1) = rs.getD (i + 1) [] :: rs.drop (i + 2) := by
          rw [getD_drop rs (i + 1) hlt2, hidx2]
        rw [traverse_succ, if_pos hguard]
        simp only [deref, hds]
        rcases h1 : rs.getD (i + 1) [] with _ | ⟨a, tl⟩
        · -- the next stage is empty: the dereference reads out of range
          have hsl : stageLen rs (i + 1) = 0 := by
            unfold stageLen
            rw [h1]
            rfl
          have hval : get_element rs ⟨i + 1, 0, stageLen rs (i + 1)⟩ = none := by
            show (rs.getD (i + 1) [])[(0 : Nat)]? = none
            rw [h1]
            rfl
          have hdone2 : done ⟨i + 1, 0, stageLen rs (i + 1)⟩ = true := by
            simp [done, hsl]
          rcases Nat.lt_or_ge (i + 2) rs.length with hlt3 | hge3
          · -- a further stage exists: operator++ promotes past the empty one
            have hinc : inc rs ⟨i + 1, 0, stageLen rs (i + 1)⟩
                = ⟨i + 2, 0, stageLen rs (i + 2)⟩ := by
              simp only [inc, hdone2, if_true, next_stage, hidx2]
              rw [if_pos hlt3]
            have hdrop2 : rs.drop (i + 2) = rs.getD (i + 2) [] :: rs.drop (i + 3) := by
              rw [getD_drop rs (i + 2) hlt3, hidx3]
            have hlen1 : (fromExhausted (rs.drop (i + 1))).length
                = 1 + stageLen rs (i + 2)
                  + (fromExhausted (rs.drop (i + 3))).length := by
              rw [hdrop1, h1, hdrop2]
              simp only [fromExhausted, List.length_cons, List.length_append,
                List.length_map, stageLen]
              omega
            have hih := ih (i + 2) 0 hlt3 (by omega)
              (by simp only [hidx3] ; omega)
            simp only [hidx3] at hih
            rw [hval, hinc, hih, hdropi, hdrop1, h1, hdrop2]
            simp [fromExhausted]
          · -- the empty next stage is the last one: operator++ is pinned there
            have hieq : i + 2 = rs.length := by omega
            have hinc : inc rs ⟨i + 1, 0, stageLen rs (i + 1)⟩
                = ⟨i + 1, 0, stageLen rs (i + 1)⟩ := by
              simp only [inc, hdone2, if_true, next_stage, hidx2]
              rw [if_neg (by omega)]
            have hdrop2 : rs.drop (i + 2) = [] := by
              rw [hieq]
              exact List.drop_length rs
            have hih := ih (i + 1) 0 hlt2 (by omega)
              (by simp only [hidx2, hdrop2, hsl, fromExhausted] ; simp)
            simp only [hidx2, hdrop2] at hih
            rw [hval, hinc, hih, hdropi, hdrop1, h1, hdrop2]
            simp [fromExhausted]
        · -- the next stage is non-empty: the dereference reads its head
          have hsl : stageLen rs (i + 1) = tl.length + 1 := by
            unfold stageLen
            rw [h1]
            rfl
          have hval : get_element rs ⟨i + 1, 0, stageLen rs (i + 1)⟩ = some a := by
            show (rs.getD (i + 1) [])[(0 : Nat)]? = some a
            rw [h1]
            simp
          have hdone2 : done ⟨i + 1, 0, stageLen rs (i + 1)⟩ = false := by
            simp [done, hsl]
          have hinc : inc rs ⟨i + 1, 0, stageLen rs (i + 1)⟩
              = ⟨i + 1, 1, stageLen rs (i + 1)⟩ := by
            simp [inc, hdone2]
          have hlen1 : (fromExhausted (rs.drop (i + 1))).length
              = 1 + tl.length + (fromExhausted (rs.drop (i + 2))).length := by
            rw [hdrop1, h1]
            simp only [fromExhausted, List.length_cons, List.length_append,
              List.length_map]
            omega
          have hih := ih (i + 1) 1 hlt2 (by omega)
            (by simp only [hidx2] ; omega)
          simp only [hidx2] at hih
          rw [hval, hinc, hih, hdropi, hdrop1, h1]
          simp [fromExhausted]
      · -- the exhausted stage is the last one: the cursor equals end()
        have hieq : i = rs.length - 1 := by omega
        subst hieq
        have hguard : neq ⟨rs.length - 1, stageLen rs (rs.length - 1),
            stageLen rs (rs.length - 1)⟩ (endIt rs) = false := by
          simp [neq, endIt]
        have hdropi : (rs.getD (rs.length - 1) []).drop
            (stageLen rs (rs.length - 1)) = [] :=
          List.drop_length (rs.getD (rs.length - 1) [])
        have hdrop1 : rs.drop (rs.length - 1 + 1) = [] := by
          apply List.drop_eq_nil_of_le
          omega
        rw [traverse_succ, if_neg (by simp [hguard]), hdropi, hdrop1]
        rfl

/-- The loop started at `begin()` of a non-empty chain `s :: ss` emits
stage 0's elements followed by the `fromExhausted` tail of the remaining
stages. -/
theorem traverse_beginIt {α : Type} (s : List α) (ss : List (List α)) (fuel : Nat)
    (hfuel : s.length + (fromExhausted ss).length ≤ fuel) :
    traverse (s :: ss) (beginIt (s :: ss)) fuel = s.map some ++ fromExhausted ss := by
  have h := traverse_eq (s :: ss) fuel 0 0 (by simp) (Nat.zero_le _)
    (by show s.length - 0 + (fromExhausted ss).length ≤ fuel ; omega)
  simpa [beginIt] using h

/-- When every stage after the exhausted one is non-empty, the loop's tail
is exactly the concatenation of those stages, every read valid. -/
theorem fromExhausted_nonempty {α : Type} (ss : List (List α))
    (h : ∀ s ∈ ss, s ≠ []) : fromExhausted ss = ss.flatten.map some := by
  induction ss with
  | nil => rfl
  | cons s ts ih =>
    rcases s with _ | ⟨a, tl⟩
    · exact absurd rfl (h [] (by simp))
    · rw [show fromExhausted ((a :: tl) :: ts)
          = some a :: (tl.map some ++ fromExhausted ts) from rfl]
      rw [ih (fun x hx => h x (by simp [hx]))]
      simp

/-- Two cursors compare equal under `operator!=` exactly when they are the
same state: same handler stage index, same `first`, same `last`. -/
theorem neq_eq_false_iff (a b : TCursor) : neq a b = false ↔ a = b := by
  constructor
  · intro h
    cases a
    cases b
    simp only [neq, Bool.or_eq_false_iff, bne_eq_false_iff_eq] at h
    simp only [TCursor.mk.injEq]
    exact ⟨h.1.1, h.1.2, h.2⟩
  · intro h
    subst h
    simp [neq]

/-- Repeated `operator++` within one stage just advances the position. -/
theorem incN_within {α : Type} (rs : List (List α)) (len : Nat) :
    ∀ (n f : Nat), f + n ≤ len → incN rs n ⟨0, f, len⟩ = ⟨0, f + n, len⟩ := by
  intro n
  induction n with
  | zero => intro f _ ; rfl
  | succ n ihn =>
    intro f h
    show inc rs (incN rs n ⟨0, f, len⟩) = _
    rw [ihn f (by omega)]
    have hd : done ⟨0, f + n, len⟩ = false := by
      simp only [done, beq_eq_false_iff_ne, ne_eq]
      omega
    have hstep : inc rs ⟨0, f + n, len⟩ = ⟨0, f + n + 1, len⟩ := by
      simp [inc, hd]
    rw [hstep, show f + n + 1 = f + (n + 1) from by omega]

/-- C1: for every chain of `N >= 1` stages, each non-empty, the standard
loop from `begin()` to `end()` yields exactly the concatenation of the
stages' elements in stage order, each element exactly once and every
dereference a valid read. -/
theorem C1_traverse_concat {α : Type} (rs : List (List α)) (fuel : Nat)
    (hne : rs ≠ []) (hstages : ∀ s ∈ rs, s ≠ [])
    (hfuel : rs.flatten.length + rs.length ≤ fuel) :
    traverse rs (beginIt rs) fuel = rs.flatten.map some := by
  rcases rs with _ | ⟨s, ss⟩
  · exact absurd rfl hne
  · have hss : ∀ x ∈ ss, x ≠ [] := fun x hx => hstages x (by simp [hx])
    have hex : fromExhausted ss = ss.flatten.map some := fromExhausted_nonempty ss hss
    rw [traverse_beginIt s ss fuel (by
      rw [hex]
      simp only [List.length_map]
      simp only [List.flatten_cons, List.length_append, List.length_cons] at hfuel
      omega)]
    rw [hex, List.flatten_cons, List.map_append]

/-- Witness for C1 at the spec's concrete scenario: chaining `[1,2,3,4]`,
`[5,6,7,8]`, `[9,10,11,12]` yields `1,...,12` in order. -/
theorem C1_traverse_concat_witness :
    traverse [[1, 2, 3, 4], [5, 6, 7, 8], [9, 10, 11, 12]]
        (beginIt [[1, 2, 3, 4], [5, 6, 7, 8], [9, 10, 11, 12]]) 15
      = ([[1, 2, 3, 4], [5, 6, 7, 8], [9, 10, 11, 12]] : List (List Nat)).flatten.map some :=
  C1_traverse_concat [[1, 2, 3, 4], [5, 6, 7, 8], [9, 10, 11, 12]] 15
    (by decide) (by decide) (by decide)

/-- C2 is false as stated: on the chain `[[], [], [1]]` the cursor
`begin()` has an exhausted active stage and is not equal to `end()`, its
leading stages are empty, and the first element of the first non-empty
stage is `1` — yet `operator*` promotes only once (to the still-empty
stage 1) and reads out of range instead of yielding `1`. -/
theorem C2_counterexample :
    neq (beginIt ([[], [], [1]] : List (List Nat))) (endIt [[], [], [1]]) = true
    ∧ done (beginIt ([[], [], [1]] : List (List Nat))) = true
    ∧ (deref ([[], [], [1]] : List (List Nat)) (beginIt [[], [], [1]])).2 ≠ some 1 := by
  decide

/-- C2 (amended): when the active StageCursor is exhausted, `operator*`
promotes exactly once — a single replacement by the next stage's handler,
never repeated — before reading.  Consequently `begin()` of a chain whose
first stage (only) is empty dereferences to the first element of the
second stage when that stage is non-empty. -/
theorem C2_single_promotion {α : Type} (rs : List (List α)) (c : TCursor)
    (hc : done c = true) (a : α) (t : List α) (ss : List (List α)) :
    derefState rs c = next_stage rs c
    ∧ deref ([] :: (a :: t) :: ss) (beginIt ([] :: (a :: t) :: ss))
        = (⟨1, 0, t.length + 1⟩, some a) := by
  constructor
  · simp [derefState, hc]
  · have hcond : (0 : Nat) + 1 < ([] :: (a :: t) :: ss).length := by
      simp only [List.length_cons]
      omega
    have hds : derefState ([] :: (a :: t) :: ss) (beginIt ([] :: (a :: t) :: ss))
        = ⟨1, 0, t.length + 1⟩ := by
      show (if 0 + 1 < ([] :: (a :: t) :: ss).length then
          (⟨0 + 1, 0, stageLen ([] :: (a :: t) :: ss) (0 + 1)⟩ : TCursor)
        else ⟨0, 0, 0⟩) = ⟨1, 0, t.length + 1⟩
      rw [if_pos hcond]
      rfl
    show (derefState ([] :: (a :: t) :: ss) (beginIt ([] :: (a :: t) :: ss)),
      get_element ([] :: (a :: t) :: ss)
        (derefState ([] :: (a :: t) :: ss) (beginIt ([] :: (a :: t) :: ss)))) = _
    rw [hds]
    simp [get_element]

/-- Witness for C2 on the chain `[[], [1]]`: a single promotion lands on
the non-empty second stage and reads its first element. -/
theorem C2_single_promotion_witness :
    derefState ([[], [1]] : List (List Nat)) ⟨0, 0, 0⟩ = next_stage [[], [1]] ⟨0, 0, 0⟩
    ∧ deref ([[], [1]] : List (List Nat)) (beginIt [[], [1]])
        = (⟨1, 0, 1⟩, some 1) :=
  C2_single_promotion [[], [1]] ⟨0, 0, 0⟩ (by decide) 1 [] []

/-- C3 is false as stated: on the all-empty chain `[[], [], []]` the claim
asserts `begin() == end()`, but `operator!=` reports them unequal, because
`begin()` holds a stage-0 handler and `end()` a stage-2 handler and the
`dynamic_cast` stage check makes cursors of different stages always
unequal. -/
theorem C3_counterexample :
    neq (beginIt ([[], [], []] : List (List Nat)))
      (endIt ([[], [], []] : List (List Nat))) = true := by
  decide

/-- C3 (amended): `begin() == end()` holds iff the chain has exactly one
stage and that stage is empty.  For `N >= 2` stages, `begin()` (stage 0)
and `end()` (stage `N-1`) are never equal, even when every stage is
empty. -/
theorem C3_begin_eq_end_iff {α : Type} (rs : List (List α)) (h : rs ≠ []) :
    (neq (beginIt rs) (endIt rs) = false) ↔ (rs.length = 1 ∧ rs.getD 0 [] = []) := by
  rw [neq_eq_false_iff]
  rcases rs with _ | ⟨s, ss⟩
  · exact absurd rfl h
  · rcases ss with _ | ⟨t, ts⟩
    · constructor
      · intro hx
        have h1 : (beginIt [s]).first = (endIt [s]).first := by
          rw [hx]
        have h2 : (0 : Nat) = s.length := by
          simpa [beginIt, endIt, stageLen] using h1
        have hs : s = [] := List.length_eq_zero.mp h2.symm
        exact ⟨rfl, by simp [hs]⟩
      · intro hx
        have hs : s = [] := by
          simpa using hx.2
        subst hs
        rfl
    · constructor
      · intro hx
        have h0 : (beginIt (s :: t :: ts)).stage = (endIt (s :: t :: ts)).stage := by
          rw [hx]
        simp only [beginIt, endIt, List.length_cons] at h0
        omega
      · intro hx
        have := hx.1
        simp only [List.length_cons] at this
        omega

/-- Witness for C3 at the single-stage empty chain `[[]]`, where
`begin() == end()` does hold. -/
theorem C3_begin_eq_end_iff_witness :
    (neq (beginIt ([[]] : List (List Nat))) (endIt ([[]] : List (List Nat))) = false)
      ↔ (([[]] : List (List Nat)).length = 1 ∧ ([[]] : List (List Nat)).getD 0 [] = []) :=
  C3_begin_eq_end_iff [[]] (by decide)

/-- C4 is false as stated: the chain `[[1], [], [2]]` does not produce the
same element sequence as `[[1], [2]]` — the empty middle stage contributes
one extra loop iteration whose dereference promotes into the empty stage
and reads out of range. -/
theorem C4_counterexample :
    traverse ([[1], [], [2]] : List (List Nat)) (beginIt [[1], [], [2]]) 4
      ≠ traverse ([[1], [2]] : List (List Nat)) (beginIt [[1], [2]]) 4 := by
  decide

/-- C4 (amended): iterating `[A, [], B]` produces A's elements, then one
invalid (out-of-range) dereference contributed by the empty middle stage,
then B's elements, whereas `[A, B]` produces exactly `A ++ B`; the empty
interior stage is not skipped transparently. -/
theorem C4_middle_empty {α : Type} (A B : List α) (fuel : Nat)
    (hA : A ≠ []) (hB : B ≠ []) (hfuel : A.length + B.length + 1 ≤ fuel) :
    traverse [A, [], B] (beginIt [A, [], B]) fuel
        = A.map some ++ none :: B.map some
    ∧ traverse [A, B] (beginIt [A, B]) fuel = (A ++ B).map some := by
  have hex1 : fromExhausted [[], B] = none :: B.map some := by
    rcases B with _ | ⟨b, tb⟩
    · exact absurd rfl hB
    · show none :: ((b :: tb).map some ++ fromExhausted []) = _
      simp [fromExhausted]
  have hex2 : fromExhausted [B] = B.map some := by
    rcases B with _ | ⟨b, tb⟩
    · exact absurd rfl hB
    · show some b :: (tb.map some ++ fromExhausted []) = _
      simp [fromExhausted]
  constructor
  · rw [traverse_beginIt A [[], B] fuel (by
      rw [hex1]
      simp only [List.length_cons, List.length_map]
      omega)]
    rw [hex1]
  · rw [traverse_beginIt A [B] fuel (by
      rw [hex2]
      simp only [List.length_map]
      omega)]
    rw [hex2, List.map_append]

/-- Witness for C4 with `A = [1]`, `B = [2]`. -/
theorem C4_middle_empty_witness :
    traverse ([[1], [], [2]] : List (List Nat)) (beginIt [[1], [], [2]]) 4
        = [1].map some ++ none :: [2].map some
    ∧ traverse ([[1], [2]] : List (List Nat)) (beginIt [[1], [2]]) 4
        = ([1] ++ [2]).map some :=
  C4_middle_empty [1] [2] 4 (by decide) (by decide) (by decide)

/-- C5 is false as stated: for `A = [1]` the chain `[A, []]` does not
reach `end()` after exactly `|A| = 1` advances (the cursor is then still
the exhausted stage-0 handler, unequal to the stage-1 `end()`), and the
loop does not produce exactly A's elements (the trailing empty stage
contributes one extra out-of-range dereference). -/
theorem C5_counterexample :
    neq (incN ([[1], []] : List (List Nat)) 1 (beginIt [[1], []])) (endIt [[1], []]) = true
    ∧ traverse ([[1], []] : List (List Nat)) (beginIt [[1], []]) 3
        ≠ ([1] : List Nat).map some := by
  decide

/-- C5 (amended): for non-empty A, iterating `[A, []]` produces A's
elements followed by one invalid (out-of-range) dereference; the cursor
positioned at A's final element (after `|A| - 1` advances) compares
unequal to `end()`; after `|A|` advances from `begin()` the cursor
(exhausted at stage 0) still compares unequal to `end()`, and it becomes
equal to `end()` only after exactly `|A| + 1` advances. -/
theorem C5_trailing_empty {α : Type} (A : List α) (fuel : Nat)
    (hA : A ≠ []) (hfuel : A.length + 1 ≤ fuel) :
    traverse [A, []] (beginIt [A, []]) fuel = A.map some ++ [none]
    ∧ neq (incN [A, []] (A.length - 1) (beginIt [A, []])) (endIt [A, []]) = true
    ∧ neq (incN [A, []] A.length (beginIt [A, []])) (endIt [A, []]) = true
    ∧ incN [A, []] (A.length + 1) (beginIt [A, []]) = endIt [A, []] := by
  have hb : beginIt [A, []] = ⟨0, 0, A.length⟩ := rfl
  have he : endIt [A, []] = ⟨1, 0, 0⟩ := rfl
  have hmid : incN [A, []] A.length (beginIt [A, []]) = ⟨0, A.length, A.length⟩ := by
    rw [hb]
    have h := incN_within [A, []] A.length A.length 0 (by omega)
    simpa using h
  have hfin : incN [A, []] (A.length - 1) (beginIt [A, []])
      = ⟨0, A.length - 1, A.length⟩ := by
    rw [hb]
    have h := incN_within [A, []] A.length (A.length - 1) 0 (by omega)
    simpa using h
  refine ⟨?_, ?_, ?_, ?_⟩
  · rw [traverse_beginIt A [[]] fuel (by
      show A.length + (fromExhausted ([[]] : List (List α))).length ≤ fuel
      simp only [fromExhausted, List.length_cons, List.length_nil]
      omega)]
    rfl
  · rw [hfin, he]
    simp [neq]
  · rw [hmid, he]
    simp [neq]
  · show inc [A, []] (incN [A, []] A.length (beginIt [A, []])) = endIt [A, []]
    rw [hmid, he]
    have hd : done ⟨0, A.length, A.length⟩ = true := by
      simp [done]
    simp [inc, hd, next_stage, stageLen]

/-- Witness for C5 with `A = [1]`. -/
theorem C5_trailing_empty_witness :
    traverse ([[1], []] : List (List Nat)) (beginIt [[1], []]) 2 = [1].map some ++ [none]
    ∧ neq (incN ([[1], []] : List (List Nat)) (1 - 1) (beginIt [[1], []])) (endIt [[1], []]) = true
    ∧ neq (incN ([[1], []] : List (List Nat)) 1 (beginIt [[1], []])) (endIt [[1], []]) = true
    ∧ incN ([[1], []] : List (List Nat)) (1 + 1) (beginIt [[1], []]) = endIt [[1], []] :=
  C5_trailing_empty [1] 2 (by decide) (by decide)

/-- C6: one advance (pre-increment) of a cursor, in both implementations:
when the active stage is not exhausted, the position moves forward one
element and the stage is unchanged; when it is exhausted, the cursor is
replaced by exactly one promotion to the next stage's cursor — the fresh
full range of stage `I + 1`, which may itself be exhausted when that stage
is empty — and no element position moves. -/
theorem C6_advance {α : Type} (rs : List (List α)) (c : TCursor)
    (mrs : List (List α)) (mc : Multi.MCursor) :
    (done c = false → inc rs c = ⟨c.stage, c.first + 1, c.last⟩)
    ∧ (done c = true → c.stage + 1 < rs.length →
        inc rs c = ⟨c.stage + 1, 0, stageLen rs (c.stage + 1)⟩)
    ∧ (Multi.atStageEnd mrs mc = false → Multi.minc mrs mc = ⟨mc.ridx, mc.elem + 1⟩)
    ∧ (Multi.atStageEnd mrs mc = true → Multi.minc mrs mc = ⟨mc.ridx + 1, 0⟩) := by
  refine ⟨?_, ?_, ?_, ?_⟩
  · intro h
    simp [inc, h]
  · intro h hlt
    simp [inc, h, next_stage, hlt]
  · intro h
    simp [Multi.minc, h]
  · intro h
    simp [Multi.minc, h]

/-- Witness for C6 on the chain `[[1], [2]]`: an in-stage advance and a
promotion, for both implementations. -/
theorem C6_advance_witness :
    inc ([[1], [2]] : List (List Nat)) ⟨0, 0, 1⟩ = ⟨0, 1, 1⟩
    ∧ inc ([[1], [2]] : List (List Nat)) ⟨0, 1, 1⟩ = ⟨1, 0, 1⟩
    ∧ Multi.minc ([[1], [2]] : List (List Nat)) ⟨0, 0⟩ = ⟨0, 1⟩
    ∧ Multi.minc ([[1], [2]] : List (List Nat)) ⟨0, 1⟩ = ⟨1, 0⟩ :=
  ⟨(C6_advance [[1], [2]] ⟨0, 0, 1⟩ [[1], [2]] ⟨0, 0⟩).1 (by decide),
   (C6_advance [[1], [2]] ⟨0, 1, 1⟩ [[1], [2]] ⟨0, 0⟩).2.1 (by decide) (by decide),
   (C6_advance [[1], [2]] ⟨0, 0, 1⟩ [[1], [2]] ⟨0, 0⟩).2.2.1 (by decide),
   (C6_advance [[1], [2]] ⟨0, 0, 1⟩ [[1], [2]] ⟨0, 1⟩).2.2.2 (by decide)⟩

/-- C7: two cursors compare equal under `operator!=` exactly when their
active stages have the same stage index and the same current and end
positions; cursors with different stage indices are never equal (the
`dynamic_cast` in `StageHandler::operator!=` fails across stages). -/
theorem C7_cursor_equality (a b : TCursor) :
    (neq a b = false ↔ a.stage = b.stage ∧ a.first = b.first ∧ a.last = b.last)
    ∧ (a.stage ≠ b.stage → neq a b = true) := by
  constructor
  · rw [neq_eq_false_iff]
    constructor
    · intro h
      subst h
      exact ⟨rfl, rfl, rfl⟩
    · intro h
      cases a
      cases b
      obtain ⟨h1, h2, h3⟩ := h
      simp_all
  · intro h
    simp only [neq, Bool.or_eq_true, bne_iff_ne, ne_eq]
    tauto

/-- Witness for C7: equal cursors at stage 0, and cursors at different
stages with identical positions that are nonetheless unequal. -/
theorem C7_cursor_equality_witness :
    (neq ⟨0, 1, 2⟩ ⟨0, 1, 2⟩ = false
      ↔ (0 : Nat) = (0 : Nat) ∧ (1 : Nat) = (1 : Nat) ∧ (2 : Nat) = (2 : Nat))
    ∧ neq ⟨0, 1, 2⟩ ⟨1, 1, 2⟩ = true :=
  ⟨(C7_cursor_equality ⟨0, 1, 2⟩ ⟨0, 1, 2⟩).1,
   (C7_cursor_equality ⟨0, 1, 2⟩ ⟨1, 1, 2⟩).2 (by decide)⟩

/-- C8: for every non-empty chain, `end()` is the cursor at the last stage
index `N - 1` (never past it) whose copied range has its current position
equal to its end position; any cursor equal to it under the equality
contract is that exact state, making it the unique terminal sentinel.
The same holds for the array-based implementation's `end()`. -/
theorem C8_end_sentinel {α : Type} (rs : List (List α)) (c : TCursor)
    (h : rs ≠ []) (hc : neq c (endIt rs) = false) :
    (endIt rs).stage = rs.length - 1
    ∧ (endIt rs).stage < rs.length
    ∧ (endIt rs).first = (endIt rs).last
    ∧ (endIt rs).last = stageLen rs (rs.length - 1)
    ∧ c = endIt rs
    ∧ (Multi.mend rs).ridx = rs.length - 1
    ∧ (Multi.mend rs).elem = stageLen rs (rs.length - 1) := by
  have hlen : 1 ≤ rs.length := by
    rcases rs with _ | ⟨s, ss⟩
    · exact absurd rfl h
    · simp
  refine ⟨rfl, ?_, rfl, rfl, (neq_eq_false_iff c (endIt rs)).mp hc, rfl, rfl⟩
  show rs.length - 1 < rs.length
  omega

/-- Witness for C8 on the chain `[[1], [2, 3]]`. -/
theorem C8_end_sentinel_witness :
    (endIt ([[1], [2, 3]] : List (List Nat))).stage
        = ([[1], [2, 3]] : List (List Nat)).length - 1
    ∧ (endIt ([[1], [2, 3]] : List (List Nat))).stage
        < ([[1], [2, 3]] : List (List Nat)).length
    ∧ (endIt ([[1], [2, 3]] : List (List Nat))).first
        = (endIt ([[1], [2, 3]] : List (List Nat))).last
    ∧ (endIt ([[1], [2, 3]] : List (List Nat))).last
        = stageLen ([[1], [2, 3]] : List (List Nat)) (([[1], [2, 3]] : List (List Nat)).length - 1)
    ∧ (⟨1, 2, 2⟩ : TCursor) = endIt ([[1], [2, 3]] : List (List Nat))
    ∧ (Multi.mend ([[1], [2, 3]] : List (List Nat))).ridx
        = ([[1], [2, 3]] : List (List Nat)).length - 1
    ∧ (Multi.mend ([[1], [2, 3]] : List (List Nat))).elem
        = stageLen ([[1], [2, 3]] : List (List Nat)) (([[1], [2, 3]] : List (List Nat)).length - 1) :=
  C8_end_sentinel [[1], [2, 3]] ⟨1, 2, 2⟩ (by decide) (by decide)

/-- C10: `operator->` returns the current position of the active stage
as-is: no exhaustion check and no promotion happen, even when the active
stage is exhausted — it then reads out of range — whereas `operator*`
first replaces the exhausted handler by the next stage's. -/
theorem C10_arrow_no_promotion {α : Type} (rs : List (List α)) (c : TCursor)
    (mrs : List (List α)) (mc : Multi.MCursor)
    (hc : done c = true) (hl : c.last = stageLen rs c.stage)
    (hm : Multi.atStageEnd mrs mc = true) :
    tarrow rs c = none
    ∧ derefState rs c = next_stage rs c
    ∧ Multi.marrow mc = mc.elem
    ∧ Multi.mderefState mrs mc = ⟨mc.ridx + 1, 0⟩ := by
  refine ⟨?_, by simp [derefState, hc], rfl, by simp [Multi.mderefState, hm]⟩
  have hfl : (rs.getD c.stage []).length ≤ c.first := by
    have h1 : c.first = c.last := by
      simpa [done] using hc
    simp only [stageLen] at hl
    omega
  show (rs.getD c.stage [])[c.first]? = none
  exact List.getElem?_eq_none hfl

/-- Witness for C10 on the chain `[[1], [2]]` with the stage-0 cursor
exhausted: the arrow read is out of range while the star dereference
promotes to stage 1. -/
theorem C10_arrow_no_promotion_witness :
    tarrow ([[1], [2]] : List (List Nat)) ⟨0, 1, 1⟩ = none
    ∧ derefState ([[1], [2]] : List (List Nat)) ⟨0, 1, 1⟩
        = next_stage ([[1], [2]] : List (List Nat)) ⟨0, 1, 1⟩
    ∧ Multi.marrow ⟨0, 1⟩ = (1 : Nat)
    ∧ Multi.mderefState ([[1], [2]] : List (List Nat)) ⟨0, 1⟩ = ⟨0 + 1, 0⟩ :=
  C10_arrow_no_promotion [[1], [2]] ⟨0, 1, 1⟩ [[1], [2]] ⟨0, 1⟩
    (by decide) (by decide) (by decide)

end Tuple

/-- C9: advancing or dereferencing one cursor leaves the chain's stored
range collection unchanged and leaves any other cursor's state unchanged:
each cursor mutates only its own by-value handler storage, and
`next_stage` only reads the shared range collection. -/
theorem C9_frame {α : Type} (w : World α) :
    (advanceA w).ranges = w.ranges
    ∧ (advanceA w).curB = w.curB
    ∧ (derefA w).1.ranges = w.ranges
    ∧ (derefA w).1.curB = w.curB :=
  ⟨rfl, rfl, rfl, rfl⟩

end MultiIterators
